import Mathlib

/-!
Verification of the feature-extraction utilities of the HAR-SSL repository
(`src/dataloaders/data_utils.py`) against their natural-language
specification.

Modelling conventions.  A window is modelled column-major: a `Window` is
the list of its channels, each channel being the list of that channel's
time-step values.  The Python code only ever touches whole columns
(`window_data[:, channel_idx]`) and the number of columns
(`window_data.shape[1]`), so this view captures everything it reads.
Machine floats are modelled by exact rationals, and by real numbers where
the code takes square roots; float32/float64 rounding is below the
granularity of this embedding.  Fallible code returns `Except String`.
-/

abbrev Col := List ℚ

abbrev Window := List Col

abbrev FeatureMatrix := List (List ℚ)

/-- Ascending sort, the result of `np.sort` on a 1-D array (any sorting
algorithm produces the same list on a linear order). -/
def sortList (l : List ℚ) : List ℚ :=
  List.insertionSort (· ≤ ·) l

/-- Arithmetic mean, `np.mean(channel_data)` (exact-rational model; the
claims only quantify over nonempty channels). -/
def listMeanQ (l : List ℚ) : ℚ :=
  l.sum / (l.length : ℚ)

/-- Rounding half to even, the semantics of `np.around` on a scalar. -/
def roundHalfEven (q : ℚ) : ℤ :=
  let f := ⌊q⌋
  let r := q - f
  if r < 1/2 then f
  else if 1/2 < r then f + 1
  else if f % 2 = 0 then f else f + 1

/-- The sampling index `np.around(np.linspace(0, T-1, num=n_points))[i]`,
computed exactly: `round(i * (T-1) / (n_points-1))`; the final
`astype(int)` on a nonnegative value is `Int.toNat`. -/
def linspaceIdx (T n_points i : ℕ) : ℕ :=
  (roundHalfEven ((i : ℚ) * ((T : ℚ) - 1) / ((n_points : ℚ) - 1))).toNat

/-- Slice assignment `row[start : start + len(vals)] = vals`, one cell at a
time (positions past the end of `row` are dropped; the extractor's writes
are always in bounds). -/
def writeList : List ℚ → ℕ → List ℚ → List ℚ
  | row, _, [] => row
  | row, start, v :: vs => writeList (row.set start v) (start + 1) vs

/-- The fixed `axes_indices` grouping of `compute_ecdf_features`:
axis 0 reads channels 0, 3, 6; axis 1 reads 1, 4, 7; axis 2 reads 2, 5, 8. -/
def axes_indices : List (List ℕ) :=
  [[0, 3, 6], [1, 4, 7], [2, 5, 8]]

/-- One iteration of the
`for i, channel_idx in enumerate(axis_channels)` loop of
`compute_ecdf_features`: mean, ascending sort, linspace-rounded sampling,
then the two writes into the row at `start_idx = i * (n_points + 1)`. -/
def writeChannel (n_points : ℕ) (w : Window) (row : List ℚ) (p : ℕ × ℕ) : List ℚ :=
  let i := p.1
  let channel_idx := p.2
  let channel_data := w.getD channel_idx []
  let mean_value := listMeanQ channel_data
  let sorted_data := sortList channel_data
  let indices := (List.range n_points).map (fun k => linspaceIdx sorted_data.length n_points k)
  let ecdf_points := indices.map (fun idx => sorted_data.getD idx 0)
  let start_idx := i * (n_points + 1)
  (writeList row start_idx ecdf_points).set (start_idx + n_points) mean_value

/-- One output row of `compute_ecdf_features`: the inner loop folded over
`enumerate(axis_channels)`, starting from the zero row created by
`np.zeros((3, (n_points + 1) * 3))`. -/
def axisRow (n_points : ℕ) (w : Window) (axis_channels : List ℕ) : List ℚ :=
  axis_channels.enum.foldl (writeChannel n_points w) (List.replicate ((n_points + 1) * 3) 0)

/-- `window_data[:, acc_indices]` with `acc_indices = list(range(0, 18, 2))`:
keep the even-indexed channels 0, 2, ..., 16. -/
def selectAcc (w : Window) : Window :=
  (List.range 9).map (fun i => w.getD (2 * i) [])

/-- The three output rows of `compute_ecdf_features` after validation and
projection. -/
def ecdf_rows (n_points : ℕ) (w : Window) : FeatureMatrix :=
  axes_indices.map (axisRow n_points w)

/-- The message of the `ValueError` raised on an unsupported channel count. -/
def channelErrorMsg (channels : ℕ) : String :=
  s!"Unsupported number of channels: {channels}. Must be 9 (acc only) or 18 (acc+gyro)."

/-- `compute_ecdf_features(window_data, n_points)` from
`src/dataloaders/data_utils.py`: channel-count validation, optional
projection of 18 channels down to the 9 accelerometer channels, then the
per-axis, per-channel ECDF feature rows. -/
def compute_ecdf_features (window_data : Window) (n_points : ℕ := 25) :
    Except String FeatureMatrix :=
  let channels := window_data.length
  if channels ≠ 9 ∧ channels ≠ 18 then
    .error (channelErrorMsg channels)
  else
    let selected := if channels = 18 then selectAcc window_data else window_data
    .ok (ecdf_rows n_points selected)

/-- `compute_batch_ecdf_features(batch_data)`: the loop
`for i in range(batch_size): features[i] = compute_ecdf_features(batch_data[i])`
with the Python exception of the first failing window aborting the batch. -/
def compute_batch_ecdf_features : List Window → Except String (List FeatureMatrix)
  | [] => .ok []
  | w :: ws =>
    match compute_ecdf_features w with
    | .error e => .error e
    | .ok r =>
      match compute_batch_ecdf_features ws with
      | .error e => .error e
      | .ok rs => .ok (r :: rs)

/-- `get_ecdf_dimension()`. -/
def get_ecdf_dimension : ℕ × ℕ := (3, 78)

/-- The `ecdf_points` list computed for one channel inside
`compute_ecdf_features`. -/
def channelPts (n_points : ℕ) (data : List ℚ) : List ℚ :=
  ((List.range n_points).map (fun k => linspaceIdx (sortList data).length n_points k)).map
    (fun idx => (sortList data).getD idx 0)

/-! ### Signal decomposition (`components_selection_one_signal`) -/

/-- `scipy.fftpack.fftfreq(n, d=1/sampling_freq)` computed exactly:
bin `k` carries frequency `k·fs/n` for `k ≤ (n-1)/2` (integer division)
and `(k-n)·fs/n` for the remaining indices. -/
def fftfreq_list (n : ℕ) (fs : ℚ) : List ℚ :=
  (List.range n).map (fun k =>
    (if k ≤ (n - 1) / 2 then (k : ℚ) else (k : ℚ) - (n : ℚ)) * fs / (n : ℚ))

/-- Branch condition under which the code appends `0` to `f_DC_signal`
(`if abs(freq) > freq1`). -/
def dcDrop (freq1 freq : ℚ) : Prop := |freq| > freq1

/-- Branch condition under which the code appends `0` to `f_noise_signal`
(`if abs(freq) <= freq2`). -/
def noiseDrop (freq2 freq : ℚ) : Prop := |freq| ≤ freq2

/-- Branch condition under which the code appends `0` to `f_body_signal`
(`if abs(freq) <= freq1 or abs(freq) > freq2`). -/
def bodyDrop (freq1 freq2 freq : ℚ) : Prop := |freq| ≤ freq1 ∨ |freq| > freq2

instance (freq1 freq : ℚ) : Decidable (dcDrop freq1 freq) :=
  inferInstanceAs (Decidable (|freq| > freq1))

instance (freq2 freq : ℚ) : Decidable (noiseDrop freq2 freq) :=
  inferInstanceAs (Decidable (|freq| ≤ freq2))

instance (freq1 freq2 freq : ℚ) : Decidable (bodyDrop freq1 freq2 freq) :=
  inferInstanceAs (Decidable (|freq| ≤ freq1 ∨ |freq| > freq2))

/-- `scipy.fftpack.fft`: the discrete Fourier transform
`X_k = Σ_n x_n · exp(-2πi·k·n/N)`. -/
noncomputable def fft (x : List ℂ) : List ℂ :=
  (List.range x.length).map (fun k =>
    ((List.range x.length).map (fun n =>
      x.getD n 0 * Complex.exp (-2 * Real.pi * Complex.I * k * n / x.length))).sum)

/-- `scipy.fftpack.ifft`: the inverse discrete Fourier transform
`x_n = (1/N) Σ_k X_k · exp(2πi·k·n/N)`. -/
noncomputable def ifft (X : List ℂ) : List ℂ :=
  (List.range X.length).map (fun n =>
    (1 / (X.length : ℂ)) *
      ((List.range X.length).map (fun k =>
        X.getD k 0 * Complex.exp (2 * Real.pi * Complex.I * k * n / X.length))).sum)

/-- `components_selection_one_signal(t_signal, freq1, freq2, sampling_freq)`:
FFT, per-bin masking of the spectrum into DC / body / noise lists (the
noise list is computed but unused by the return), inverse FFT and real
part of the DC and body components. -/
noncomputable def components_selection_one_signal (t_signal : List ℝ)
    (freq1 freq2 sampling_freq : ℚ) : List ℝ × List ℝ :=
  let t_signal_length := t_signal.length
  let f_signal := fft (t_signal.map (fun x => (x : ℂ)))
  let freqs := fftfreq_list t_signal_length sampling_freq
  let f_DC_signal := (List.range t_signal_length).map (fun i =>
    if dcDrop freq1 (freqs.getD i 0) then 0 else f_signal.getD i 0)
  let f_noise_signal := (List.range t_signal_length).map (fun i =>
    if noiseDrop freq2 (freqs.getD i 0) then 0 else f_signal.getD i 0)
  let f_body_signal := (List.range t_signal_length).map (fun i =>
    if bodyDrop freq1 freq2 (freqs.getD i 0) then 0 else f_signal.getD i 0)
  let t_DC_component := (ifft f_DC_signal).map Complex.re
  let t_body_component := (ifft f_body_signal).map Complex.re
  (t_DC_component, t_body_component)

/-! ### Normalizer -/

/-- A pandas dataframe as seen by `Normalizer`: each row carries an index
label (`df.index`) and its values.  Values are real numbers because
`df.std` takes square roots. -/
abbrev Df := List (ℕ × List ℝ)

/-- `np.finfo(float).eps`, the machine epsilon of float64. -/
noncomputable def eps : ℝ := 1 / 2 ^ 52

/-- Column `j` of the dataframe. -/
def colVals (df : Df) (j : ℕ) : List ℝ :=
  df.map (fun r => r.2.getD j 0)

/-- The number of columns (rows are rectangular in a dataframe). -/
def nCols (df : Df) : ℕ :=
  (df.headD (0, [])).2.length

/-- Mean of a list of reals (`df.mean(0)` per column,
`transform('mean')` per group). -/
noncomputable def listMeanR (l : List ℝ) : ℝ :=
  l.sum / (l.length : ℝ)

/-- Pandas standard deviation (`df.std(0)`, `transform('std')`): the
square root of the sample variance with `ddof = 1`. -/
noncomputable def listStd (l : List ℝ) : ℝ :=
  Real.sqrt (((l.map (fun x => (x - listMeanR l) ^ 2)).sum) / ((l.length : ℝ) - 1))

/-- Maximum of a list (`df.max()`, `transform('max')`); pandas has no
value on an empty column, the claims only use nonempty data. -/
noncomputable def listMax : List ℝ → ℝ
  | [] => 0
  | x :: xs => xs.foldl max x

/-- Minimum of a list (`df.min()`, `transform('min')`). -/
noncomputable def listMin : List ℝ → ℝ
  | [] => 0
  | x :: xs => xs.foldl min x

/-- Column `j` restricted to the rows whose index label equals `idx`
(`df.groupby(by=df.index)` followed by a transform reads, for each row,
the rows sharing its label). -/
def groupCol (df : Df) (idx j : ℕ) : List ℝ :=
  (df.filter (fun r => r.1 == idx)).map (fun r => r.2.getD j 0)

/-- The fitted state of a `Normalizer` (Python instance attributes;
attributes a mode does not set stay empty). -/
structure NormState where
  mean : List ℝ := []
  std : List ℝ := []
  min_val : List ℝ := []
  max_val : List ℝ := []

/-- The `NameError` message raised for an unknown `norm_type`. -/
def unknownModeMsg (norm_type : String) : String :=
  s!"Normalize method \"{norm_type}\" not implemented"

/-- The four recognized `norm_type` strings. -/
def validModes : List String :=
  ["standardization", "minmax", "per_sample_std", "per_sample_minmax"]

/-- `Normalizer.fit(df)` for `self.norm_type = norm_type`: computes the
whole-dataset statistics for the two global modes, sets nothing useful
for the two per-sample modes, and raises `NameError` otherwise. -/
noncomputable def Normalizer.fit (norm_type : String) (df : Df) :
    Except String NormState :=
  if norm_type = "standardization" then
    .ok { mean := (List.range (nCols df)).map (fun j => listMeanR (colVals df j)),
          std := (List.range (nCols df)).map (fun j => listStd (colVals df j)) }
  else if norm_type = "minmax" then
    .ok { max_val := (List.range (nCols df)).map (fun j => listMax (colVals df j)),
          min_val := (List.range (nCols df)).map (fun j => listMin (colVals df j)) }
  else if norm_type = "per_sample_std" then
    .ok {}
  else if norm_type = "per_sample_minmax" then
    .ok {}
  else
    .error (unknownModeMsg norm_type)

/-- `Normalizer.normalize(df)`: the four mode formulas of the source
(note: `per_sample_std` divides by the group standard deviation with no
epsilon; the other three denominators add `eps`). -/
noncomputable def Normalizer.normalize (norm_type : String) (st : NormState) (df : Df) :
    Except String Df :=
  if norm_type = "standardization" then
    .ok (df.map (fun r => (r.1, (List.range r.2.length).map (fun j =>
      (r.2.getD j 0 - st.mean.getD j 0) / (st.std.getD j 0 + eps)))))
  else if norm_type = "minmax" then
    .ok (df.map (fun r => (r.1, (List.range r.2.length).map (fun j =>
      (r.2.getD j 0 - st.min_val.getD j 0) /
        (st.max_val.getD j 0 - st.min_val.getD j 0 + eps)))))
  else if norm_type = "per_sample_std" then
    .ok (df.map (fun r => (r.1, (List.range r.2.length).map (fun j =>
      (r.2.getD j 0 - listMeanR (groupCol df r.1 j)) / listStd (groupCol df r.1 j)))))
  else if norm_type = "per_sample_minmax" then
    .ok (df.map (fun r => (r.1, (List.range r.2.length).map (fun j =>
      (r.2.getD j 0 - listMin (groupCol df r.1 j)) /
        (listMax (groupCol df r.1 j) - listMin (groupCol df r.1 j) + eps)))))
  else
    .error (unknownModeMsg norm_type)

/-- The denominator `Normalizer.normalize` divides by at row position `i`,
column `j` (read off the four formulas above; `0` for unknown modes). -/
noncomputable def normalizeDenom (norm_type : String) (st : NormState) (df : Df)
    (i j : ℕ) : ℝ :=
  if norm_type = "standardization" then st.std.getD j 0 + eps
  else if norm_type = "minmax" then
    st.max_val.getD j 0 - st.min_val.getD j 0 + eps
  else if norm_type = "per_sample_std" then
    listStd (groupCol df (df.getD i (0, [])).1 j)
  else if norm_type = "per_sample_minmax" then
    listMax (groupCol df (df.getD i (0, [])).1 j) -
      listMin (groupCol df (df.getD i (0, [])).1 j) + eps
  else 0

/-- The value `Normalizer.normalize` subtracts at row position `i`,
column `j`. -/
noncomputable def normalizeCenter (norm_type : String) (st : NormState) (df : Df)
    (i j : ℕ) : ℝ :=
  if norm_type = "standardization" then st.mean.getD j 0
  else if norm_type = "minmax" then st.min_val.getD j 0
  else if norm_type = "per_sample_std" then
    listMeanR (groupCol df (df.getD i (0, [])).1 j)
  else if norm_type = "per_sample_minmax" then
    listMin (groupCol df (df.getD i (0, [])).1 j)
  else 0

/-- Entry of the dataframe at row position `i`, column `j`. -/
def entryAt (df : Df) (i j : ℕ) : ℝ :=
  ((df.getD i (0, [])).2).getD j 0

/-! ### Concrete example inputs (used by witnesses) -/

/-- A 9-channel window with two time steps per channel. -/
def wEx9 : Window :=
  [[0, 1], [1, 2], [2, 3], [3, 4], [4, 5], [5, 6], [6, 7], [7, 8], [8, 9]]

/-- An 18-channel window with one time step per channel. -/
def wEx18 : Window :=
  [[0], [1], [2], [3], [4], [5], [6], [7], [8],
   [9], [10], [11], [12], [13], [14], [15], [16], [17]]

/-- A 1-channel window, which fails channel validation. -/
def wExBad : Window := [[1]]

/-- A batch whose first window is valid and whose second is not. -/
def batchEx : List Window := [wEx9, wExBad]

/-- A dataframe of two rows sharing index label 0, constant in its single
column. -/
def dfConst : Df := [(0, [1]), (0, [1])]

/-! ### Generic list lemmas -/

lemma getD_map_range {α : Type _} (f : ℕ → α) (d : α) {n j : ℕ} :
    ((List.range n).map f).getD j d = if j < n then f j else d := by
  rw [List.getD_eq_getElem?_getD, List.getElem?_map]
  by_cases h : j < n
  · rw [List.getElem?_range h]
    simp [h]
  · rw [List.getElem?_eq_none (by simpa using Nat.le_of_not_lt h)]
    simp [h]

lemma getD_set {α : Type _} (l : List α) (m k : ℕ) (v d : α) :
    (l.set m v).getD k d = if m = k ∧ m < l.length then v else l.getD k d := by
  by_cases h1 : m = k
  · subst h1
    by_cases h2 : m < l.length
    · simp [List.getD_eq_getElem?_getD, List.getElem?_set, h2]
    · simp [List.getD_eq_getElem?_getD, List.getElem?_set, h2,
        List.getElem?_eq_none (Nat.le_of_not_lt h2)]
  · simp [List.getD_eq_getElem?_getD, List.getElem?_set, h1]

/-! ### Lemmas about the slice write `writeList` -/

lemma writeList_length : ∀ (vals row : List ℚ) (start : ℕ),
    (writeList row start vals).length = row.length := by
  intro vals
  induction vals with
  | nil => intro row start; rfl
  | cons v vs ih =>
    intro row start
    rw [writeList, ih, List.length_set]

lemma writeList_getD : ∀ (vals row : List ℚ) (start k : ℕ),
    (writeList row start vals).getD k 0 =
      if start ≤ k ∧ k < start + vals.length ∧ k < row.length then vals.getD (k - start) 0
      else row.getD k 0 := by
  intro vals
  induction vals with
  | nil =>
    intro row start k
    rw [writeList, if_neg (by simp only [List.length_nil]; omega)]
  | cons v vs ih =>
    intro row start k
    rw [writeList, ih, List.length_set]
    rcases Nat.lt_trichotomy k start with h | h | h
    · rw [if_neg (by omega), if_neg (by omega), getD_set, if_neg (by omega)]
    · subst h
      rw [if_neg (by omega)]
      by_cases h2 : k < row.length
      · rw [if_pos ⟨le_refl _, by simp, h2⟩, getD_set, if_pos ⟨rfl, h2⟩]
        simp
      · rw [if_neg (by omega), getD_set, if_neg (by omega)]
    · by_cases h2 : k < start + (v :: vs).length ∧ k < row.length
      · rw [if_pos ⟨by omega, by simp at h2; omega, h2.2⟩, if_pos ⟨by omega, h2⟩]
        have hk : k - start = (k - (start + 1)) + 1 := by omega
        rw [hk, List.getD_cons_succ]
      · rw [if_neg (by simp at h2 ⊢; omega), if_neg (by simp at h2 ⊢; omega),
          getD_set, if_neg (by omega)]

/-! ### Characterizing the per-channel writes -/

lemma channelPts_length (n_points : ℕ) (data : List ℚ) :
    (channelPts n_points data).length = n_points := by
  simp [channelPts]

lemma channelPts_getD (n_points : ℕ) (data : List ℚ) {j : ℕ} (hj : j < n_points) :
    (channelPts n_points data).getD j 0 =
      (sortList data).getD (linspaceIdx (sortList data).length n_points j) 0 := by
  rw [channelPts, List.map_map, getD_map_range, if_pos hj]
  rfl


lemma writeChannel_eq (n_points : ℕ) (w : Window) (row : List ℚ) (i c : ℕ) :
    writeChannel n_points w row (i, c) =
      (writeList row (i * (n_points + 1)) (channelPts n_points (w.getD c []))).set
        (i * (n_points + 1) + n_points) (listMeanQ (w.getD c [])) := rfl

lemma writeChannel_length (n_points : ℕ) (w : Window) (row : List ℚ) (i c : ℕ) :
    (writeChannel n_points w row (i, c)).length = row.length := by
  rw [writeChannel_eq, List.length_set, writeList_length]

/-- Positions strictly below the segment written by `writeChannel` are left
unchanged. -/
lemma writeChannel_getD_of_lt (n_points : ℕ) (w : Window) (row : List ℚ) (i c k : ℕ)
    (hk : k < i * (n_points + 1)) :
    (writeChannel n_points w row (i, c)).getD k 0 = row.getD k 0 := by
  rw [writeChannel_eq, getD_set, if_neg (by omega), writeList_getD, if_neg (by omega)]

/-- Inside its own segment, `writeChannel` writes the sampled points and
then the mean. -/
lemma writeChannel_getD_seg (n_points : ℕ) (w : Window) (row : List ℚ) (i c : ℕ)
    {j : ℕ} (hj : j ≤ n_points) (hrow : row.length = (n_points + 1) * 3) (hi : i < 3) :
    (writeChannel n_points w row (i, c)).getD (i * (n_points + 1) + j) 0 =
      if j < n_points then (channelPts n_points (w.getD c [])).getD j 0
      else listMeanQ (w.getD c []) := by
  have hle : i * (n_points + 1) ≤ 2 * (n_points + 1) :=
    Nat.mul_le_mul (by omega) (le_refl _)
  rw [writeChannel_eq, getD_set, writeList_length, writeList_getD, channelPts_length]
  by_cases hjn : j < n_points
  · rw [if_neg (by omega), if_pos ⟨by omega, by omega, by omega⟩, if_pos hjn]
    congr 1
    omega
  · have hje : j = n_points := by omega
    subst hje
    rw [if_pos ⟨rfl, by omega⟩, if_neg hjn]

lemma foldl_writeChannel_length (n_points : ℕ) (w : Window) :
    ∀ (l : List (ℕ × ℕ)) (row : List ℚ),
      (l.foldl (writeChannel n_points w) row).length = row.length := by
  intro l
  induction l with
  | nil => intro row; rfl
  | cons p ps ih =>
    intro row
    rw [List.foldl_cons, ih]
    rcases p with ⟨i, c⟩
    rw [writeChannel_length]

lemma axisRow_length (n_points : ℕ) (w : Window) (chans : List ℕ) :
    (axisRow n_points w chans).length = (n_points + 1) * 3 := by
  rw [axisRow, foldl_writeChannel_length, List.length_replicate]

/-- Entry characterization of one output row of the extractor: position
`i * (n_points + 1) + j` of the row built over channels `[c0, c1, c2]`
holds sampled point `j` of channel `cᵢ` when `j < n_points`, and channel
`cᵢ`'s mean when `j = n_points`. -/
lemma axisRow_getD (n_points : ℕ) (w : Window) (c0 c1 c2 : ℕ) {i j : ℕ}
    (hi : i < 3) (hj : j ≤ n_points) :
    (axisRow n_points w [c0, c1, c2]).getD (i * (n_points + 1) + j) 0 =
      if j < n_points then
        (channelPts n_points (w.getD ([c0, c1, c2].getD i 0) [])).getD j 0
      else listMeanQ (w.getD ([c0, c1, c2].getD i 0) []) := by
  have hunfold : axisRow n_points w [c0, c1, c2] =
      writeChannel n_points w
        (writeChannel n_points w
          (writeChannel n_points w (List.replicate ((n_points + 1) * 3) 0) (0, c0))
          (1, c1)) (2, c2) := rfl
  rw [hunfold]
  have l0 : (List.replicate ((n_points + 1) * 3) (0 : ℚ)).length = (n_points + 1) * 3 :=
    List.length_replicate _ _
  have l1 : (writeChannel n_points w (List.replicate ((n_points + 1) * 3) 0)
      (0, c0)).length = (n_points + 1) * 3 := by
    rw [writeChannel_length, l0]
  have l2 : (writeChannel n_points w (writeChannel n_points w
      (List.replicate ((n_points + 1) * 3) 0) (0, c0)) (1, c1)).length =
      (n_points + 1) * 3 := by
    rw [writeChannel_length, l1]
  interval_cases i
  · rw [writeChannel_getD_of_lt n_points w _ 2 c2 _ (by omega),
      writeChannel_getD_of_lt n_points w _ 1 c1 _ (by omega),
      writeChannel_getD_seg n_points w _ 0 c0 hj l0 (by norm_num)]
    simp
  · rw [writeChannel_getD_of_lt n_points w _ 2 c2 _ (by omega),
      writeChannel_getD_seg n_points w _ 1 c1 hj l1 (by norm_num)]
    simp
  · rw [writeChannel_getD_seg n_points w _ 2 c2 hj l2 (by norm_num)]
    simp

/-! ### Lemmas about the whole extractor -/

lemma sortList_length (l : List ℚ) : (sortList l).length = l.length :=
  (List.perm_insertionSort (· ≤ ·) l).length_eq

lemma compute_ecdf_features_ok (w : Window) (n_points : ℕ)
    (h : w.length = 9 ∨ w.length = 18) :
    compute_ecdf_features w n_points =
      .ok (ecdf_rows n_points (if w.length = 18 then selectAcc w else w)) := by
  rcases h with h | h <;> simp [compute_ecdf_features, h]

lemma compute_ecdf_features_error (w : Window) (n_points : ℕ)
    (h9 : w.length ≠ 9) (h18 : w.length ≠ 18) :
    compute_ecdf_features w n_points = .error (channelErrorMsg w.length) := by
  simp [compute_ecdf_features, h9, h18]

/-- Entry characterization of the full feature block of a 9-channel window:
axis `a`, sensor `i`, offset `j`. -/
lemma ecdf_rows_getD_entry (n_points : ℕ) (w : Window) (a i j : ℕ)
    (ha : a < 3) (hi : i < 3) (hj : j ≤ n_points) :
    ((ecdf_rows n_points w).getD a []).getD (i * (n_points + 1) + j) 0 =
      if j < n_points then (channelPts n_points (w.getD (3 * i + a) [])).getD j 0
      else listMeanQ (w.getD (3 * i + a) []) := by
  interval_cases a
  · rw [show (ecdf_rows n_points w).getD 0 [] = axisRow n_points w [0, 3, 6] from rfl,
      axisRow_getD n_points w 0 3 6 hi hj]
    interval_cases i <;> norm_num
  · rw [show (ecdf_rows n_points w).getD 1 [] = axisRow n_points w [1, 4, 7] from rfl,
      axisRow_getD n_points w 1 4 7 hi hj]
    interval_cases i <;> norm_num
  · rw [show (ecdf_rows n_points w).getD 2 [] = axisRow n_points w [2, 5, 8] from rfl,
      axisRow_getD n_points w 2 5 8 hi hj]
    interval_cases i <;> norm_num

/-- **C1.** For a 9-channel window of `T ≥ 1` rectangular time steps and any
`n_points ≥ 2`, `compute_ecdf_features` succeeds with a `3 × 3·(n_points+1)`
matrix in which, for every axis `a < 3` and sensor position `i < 3`
(channel `3·i + a`), the columns `[i·(n_points+1), (i+1)·(n_points+1))`
hold the channel's ascending-sorted values sampled at the indices
`round(linspace(0, T-1, n_points))`, followed by the channel's arithmetic
mean. -/
theorem ecdf_features_layout (w : Window) (n_points T : ℕ)
    (hnp : 2 ≤ n_points) (hT : 1 ≤ T) (hw : w.length = 9)
    (hrect : ∀ col ∈ w, col.length = T) :
    ∃ M, compute_ecdf_features w n_points = .ok M ∧
      M.length = 3 ∧ (∀ row ∈ M, row.length = 3 * (n_points + 1)) ∧
      ∀ a i j, a < 3 → i < 3 →
        (j < n_points →
          (M.getD a []).getD (i * (n_points + 1) + j) 0 =
            (sortList (w.getD (3 * i + a) [])).getD (linspaceIdx T n_points j) 0) ∧
        (M.getD a []).getD (i * (n_points + 1) + n_points) 0 =
          listMeanQ (w.getD (3 * i + a) []) := by
  refine ⟨ecdf_rows n_points w, ?_, by simp [ecdf_rows, axes_indices], ?_, ?_⟩
  · rw [compute_ecdf_features_ok w n_points (Or.inl hw), hw]
    norm_num
  · intro row hrow
    simp only [ecdf_rows, axes_indices, List.map_cons, List.map_nil, List.mem_cons,
      List.not_mem_nil, or_false] at hrow
    rcases hrow with h | h | h <;> subst h <;> rw [axisRow_length] <;> ring
  · intro a i j ha hi
    have hcol : ∀ c, c < 9 → (w.getD c []).length = T := by
      intro c hc
      have hcl : c < w.length := by omega
      rw [List.getD_eq_getElem _ _ hcl]
      exact hrect _ (List.getElem_mem hcl)
    constructor
    · intro hjn
      rw [ecdf_rows_getD_entry n_points w a i j ha hi (le_of_lt hjn), if_pos hjn,
        channelPts_getD n_points _ hjn, sortList_length, hcol (3 * i + a) (by omega)]
    · rw [ecdf_rows_getD_entry n_points w a i n_points ha hi (le_refl _),
        if_neg (lt_irrefl _)]

/-- **C1 witness.** The layout theorem applied to the concrete window
`wEx9` with `n_points = 25` and `T = 2`. -/
theorem ecdf_features_layout_witness :
    ∃ M, compute_ecdf_features wEx9 25 = .ok M ∧ M.length = 3 := by
  obtain ⟨M, h1, h2, -, -⟩ :=
    ecdf_features_layout wEx9 25 2 (by norm_num) (by norm_num) (by decide) (by decide)
  exact ⟨M, h1, h2⟩

/-- **C3.** For every 18-channel window, `compute_ecdf_features` returns
exactly the result of `compute_ecdf_features` on the 9-channel projection
onto the even-indexed channels 0, 2, ..., 16. -/
theorem ecdf_features_18_eq_projection (w : Window) (n_points : ℕ)
    (hw : w.length = 18) :
    compute_ecdf_features w n_points = compute_ecdf_features (selectAcc w) n_points := by
  have h9 : (selectAcc w).length = 9 := by simp [selectAcc]
  rw [compute_ecdf_features_ok w n_points (Or.inr hw),
    compute_ecdf_features_ok (selectAcc w) n_points (Or.inl h9), hw, h9]
  norm_num

/-- **C3 witness.** The projection theorem applied to the concrete
18-channel window `wEx18`. -/
theorem ecdf_features_18_eq_projection_witness :
    compute_ecdf_features wEx18 25 = compute_ecdf_features (selectAcc wEx18) 25 :=
  ecdf_features_18_eq_projection wEx18 25 (by decide)

/-- **C5.** `compute_ecdf_features` errors exactly when the channel count
is neither 9 nor 18, and `compute_batch_ecdf_features` fails with the
error of the first window failing validation (all windows before position
`k` valid, window `k` invalid), returning no partial batch result. -/
theorem channel_validation_errors :
    (∀ (w : Window) (n_points : ℕ),
      (∃ e, compute_ecdf_features w n_points = .error e) ↔
        w.length ≠ 9 ∧ w.length ≠ 18) ∧
    (∀ (batch : List Window) (k : ℕ), k < batch.length →
      (∀ j, j < k → ((batch.getD j []).length = 9 ∨ (batch.getD j []).length = 18)) →
      (batch.getD k []).length ≠ 9 → (batch.getD k []).length ≠ 18 →
      compute_batch_ecdf_features batch =
        .error (channelErrorMsg (batch.getD k []).length)) := by
  constructor
  · intro w n_points
    constructor
    · rintro ⟨e, he⟩
      by_cases h9 : w.length = 9
      · rw [compute_ecdf_features_ok w n_points (Or.inl h9)] at he
        simp at he
      · by_cases h18 : w.length = 18
        · rw [compute_ecdf_features_ok w n_points (Or.inr h18)] at he
          simp at he
        · exact ⟨h9, h18⟩
    · rintro ⟨h9, h18⟩
      exact ⟨_, compute_ecdf_features_error w n_points h9 h18⟩
  · intro batch
    induction batch with
    | nil =>
      intro k hk
      simp at hk
    | cons w ws ih =>
      intro k hk hvalid h9 h18
      cases k with
      | zero =>
        rw [List.getD_cons_zero] at h9 h18 ⊢
        rw [compute_batch_ecdf_features, compute_ecdf_features_error w 25 h9 h18]
      | succ k' =>
        have hv0 := hvalid 0 (Nat.succ_pos _)
        rw [List.getD_cons_zero] at hv0
        rw [List.getD_cons_succ] at h9 h18 ⊢
        have hrec := ih k' (by simpa using Nat.lt_of_succ_lt_succ hk)
          (fun j hj => by
            have := hvalid (j + 1) (Nat.succ_lt_succ hj)
            rwa [List.getD_cons_succ] at this) h9 h18
        rw [compute_batch_ecdf_features, compute_ecdf_features_ok w 25 hv0, hrec]

/-- **C5 witness.** Validation applied to the 1-channel window `wExBad`
and to the concrete batch `batchEx`, which fails at position 1. -/
theorem channel_validation_errors_witness :
    (∃ e, compute_ecdf_features wExBad 25 = .error e) ∧
    compute_batch_ecdf_features batchEx = .error (channelErrorMsg 1) := by
  constructor
  · exact (channel_validation_errors.1 wExBad 25).2 ⟨by decide, by decide⟩
  · have h := channel_validation_errors.2 batchEx 1 (by decide)
      (by
        intro j hj
        interval_cases j
        exact Or.inl (by decide))
      (by decide) (by decide)
    have h2 : ((batchEx.getD 1 []).length : ℕ) = 1 := by decide
    rwa [h2] at h

/-! ### Batch extraction (C4) -/

lemma ecdf_rows_length (n_points : ℕ) (w : Window) :
    (ecdf_rows n_points w).length = 3 := by
  simp [ecdf_rows, axes_indices]

lemma ecdf_rows_row_length (n_points : ℕ) (w : Window) :
    ∀ row ∈ ecdf_rows n_points w, row.length = (n_points + 1) * 3 := by
  intro row hrow
  simp only [ecdf_rows, axes_indices, List.map_cons, List.map_nil, List.mem_cons,
    List.not_mem_nil, or_false] at hrow
  rcases hrow with h | h | h <;> subst h <;> rw [axisRow_length]

/-- **C4.** On a batch whose windows all pass channel validation,
`compute_batch_ecdf_features` succeeds with one `(3, 78)` feature block
per window, in input order, where block `i` is exactly
`compute_ecdf_features` of window `i` (windows are processed
independently, with no cross-window interaction). -/
theorem batch_features_rowwise (batch : List Window)
    (hvalid : ∀ w ∈ batch, w.length = 9 ∨ w.length = 18) :
    ∃ rs, compute_batch_ecdf_features batch = .ok rs ∧
      rs.length = batch.length ∧
      (∀ r ∈ rs, r.length = 3 ∧ ∀ row ∈ r, row.length = 78) ∧
      ∀ i, i < batch.length →
        compute_ecdf_features (batch.getD i []) = .ok (rs.getD i []) := by
  induction batch with
  | nil => exact ⟨[], rfl, rfl, by simp, fun i hi => absurd hi (by simp)⟩
  | cons w ws ih =>
    obtain ⟨rs, h1, h2, h3, h4⟩ := ih (fun x hx => hvalid x (List.mem_cons_of_mem _ hx))
    have hw := hvalid w (List.mem_cons_self _ _)
    refine ⟨ecdf_rows 25 (if w.length = 18 then selectAcc w else w) :: rs, ?_, ?_, ?_, ?_⟩
    · rw [compute_batch_ecdf_features, compute_ecdf_features_ok w 25 hw, h1]
    · simp [h2]
    · intro r hr
      rcases List.mem_cons.mp hr with h | h
      · subst h
        refine ⟨ecdf_rows_length _ _, ?_⟩
        intro row hrow
        rw [ecdf_rows_row_length _ _ row hrow]
      · exact h3 r h
    · intro i hi
      cases i with
      | zero =>
        rw [List.getD_cons_zero, List.getD_cons_zero, compute_ecdf_features_ok w 25 hw]
      | succ n =>
        rw [List.getD_cons_succ, List.getD_cons_succ]
        exact h4 n (by simpa using Nat.lt_of_succ_lt_succ hi)

/-- **C4 witness.** The batch theorem applied to the concrete singleton
batch containing `wEx9`. -/
theorem batch_features_rowwise_witness :
    ∃ rs, compute_batch_ecdf_features [wEx9] = .ok rs ∧ rs.length = 1 := by
  obtain ⟨rs, h1, h2, -, -⟩ := batch_features_rowwise [wEx9]
    (by
      intro w hw
      rw [List.mem_singleton] at hw
      subst hw
      exact Or.inl (by decide))
  exact ⟨rs, h1, by simpa using h2⟩

/-! ### Permutation invariance (C8) -/

lemma sortList_perm_congr {l l2 : List ℚ} (h : l.Perm l2) : sortList l = sortList l2 :=
  List.eq_of_perm_of_sorted
    ((List.perm_insertionSort _ l).trans (h.trans (List.perm_insertionSort _ l2).symm))
    (List.sorted_insertionSort _ l) (List.sorted_insertionSort _ l2)

lemma listMeanQ_perm_congr {l l2 : List ℚ} (h : l.Perm l2) : listMeanQ l = listMeanQ l2 := by
  rw [listMeanQ, listMeanQ, h.sum_eq, h.length_eq]

lemma channelPts_perm_congr (n_points : ℕ) {l l2 : List ℚ} (h : l.Perm l2) :
    channelPts n_points l = channelPts n_points l2 := by
  rw [channelPts, channelPts, sortList_perm_congr h]

lemma writeChannel_congr (n_points : ℕ) (w w2 : Window) (row : List ℚ) (p : ℕ × ℕ)
    (h : (w.getD p.2 []).Perm (w2.getD p.2 [])) :
    writeChannel n_points w row p = writeChannel n_points w2 row p := by
  rcases p with ⟨i, c⟩
  rw [writeChannel_eq, writeChannel_eq, channelPts_perm_congr n_points h,
    listMeanQ_perm_congr h]

lemma foldl_writeChannel_congr (n_points : ℕ) (w w2 : Window) :
    ∀ (l : List (ℕ × ℕ)) (row : List ℚ),
      (∀ p ∈ l, (w.getD p.2 []).Perm (w2.getD p.2 [])) →
      l.foldl (writeChannel n_points w) row = l.foldl (writeChannel n_points w2) row := by
  intro l
  induction l with
  | nil => intro row _; rfl
  | cons p ps ih =>
    intro row h
    rw [List.foldl_cons, List.foldl_cons,
      writeChannel_congr n_points w w2 row p (h p (List.mem_cons_self _ _)),
      ih _ (fun q hq => h q (List.mem_cons_of_mem _ hq))]

lemma axisRow_congr (n_points : ℕ) (w w2 : Window) (chans : List ℕ)
    (h : ∀ c ∈ chans, (w.getD c []).Perm (w2.getD c [])) :
    axisRow n_points w chans = axisRow n_points w2 chans := by
  rw [axisRow, axisRow]
  apply foldl_writeChannel_congr
  intro p hp
  apply h
  rw [List.enum_eq_zip_range] at hp
  exact (List.of_mem_zip hp).2

lemma ecdf_rows_congr (n_points : ℕ) (w w2 : Window)
    (h : ∀ c, c < 9 → (w.getD c []).Perm (w2.getD c [])) :
    ecdf_rows n_points w = ecdf_rows n_points w2 := by
  have haxis : ∀ chans : List ℕ, (∀ c ∈ chans, c < 9) →
      axisRow n_points w chans = axisRow n_points w2 chans := by
    intro chans hc
    exact axisRow_congr n_points w w2 chans (fun c hcm => h c (hc c hcm))
  rw [ecdf_rows, ecdf_rows]
  simp only [axes_indices, List.map_cons, List.map_nil]
  rw [haxis [0, 3, 6] (by intro c hc; simp at hc; rcases hc with h | h | h <;> omega),
    haxis [1, 4, 7] (by intro c hc; simp at hc; rcases hc with h | h | h <;> omega),
    haxis [2, 5, 8] (by intro c hc; simp at hc; rcases hc with h | h | h <;> omega)]

lemma set_perm_getD (w : Window) (c : ℕ) (d : Col)
    (hperm : (w.getD c []).Perm d) (c2 : ℕ) :
    ((w.set c d).getD c2 []).Perm (w.getD c2 []) := by
  rw [getD_set]
  split_ifs with hif
  · obtain ⟨h1, h2⟩ := hif
    subst h1
    exact hperm.symm
  · exact List.Perm.refl _

lemma selectAcc_getD (v : Window) {i : ℕ} (hi : i < 9) :
    (selectAcc v).getD i [] = v.getD (2 * i) [] := by
  rw [selectAcc, getD_map_range, if_pos hi]

/-- **C8.** Permuting the time order of one channel's samples leaves the
output of `compute_ecdf_features` unchanged (in particular, the 26-value
feature segment of that channel): replacing channel `c` of a valid window
by any permutation of its values yields the identical feature block. -/
theorem ecdf_features_perm_invariant (w : Window) (n_points c : ℕ) (d : Col)
    (hw : w.length = 9 ∨ w.length = 18) (hc : c < w.length)
    (hperm : (w.getD c []).Perm d) :
    compute_ecdf_features (w.set c d) n_points = compute_ecdf_features w n_points := by
  have hlen : (w.set c d).length = w.length := List.length_set w c d
  rcases hw with h9 | h18
  · rw [compute_ecdf_features_ok _ n_points (Or.inl (by rw [hlen, h9])),
      compute_ecdf_features_ok w n_points (Or.inl h9), hlen, h9]
    norm_num
    exact ecdf_rows_congr n_points _ w (fun c2 _ => set_perm_getD w c d hperm c2)
  · rw [compute_ecdf_features_ok _ n_points (Or.inr (by rw [hlen, h18])),
      compute_ecdf_features_ok w n_points (Or.inr h18), hlen, h18]
    norm_num
    apply ecdf_rows_congr
    intro c2 hc2
    rw [selectAcc_getD _ hc2, selectAcc_getD _ hc2]
    exact set_perm_getD w c d hperm (2 * c2)

/-- **C8 witness.** Permuting the two samples of channel 0 of `wEx9`
leaves the feature block unchanged. -/
theorem ecdf_features_perm_invariant_witness :
    compute_ecdf_features (wEx9.set 0 [1, 0]) 25 = compute_ecdf_features wEx9 25 :=
  ecdf_features_perm_invariant wEx9 25 0 [1, 0] (Or.inl (by decide)) (by decide) (by decide)

/-! ### Frequency mask partition (C2) -/

/-- **C2.** For band edges `0 ≤ freq1 ≤ freq2`, every frequency value is
kept by exactly one of the three masks of
`components_selection_one_signal`: its DC mask keeps `|f| ≤ freq1`, its
body mask keeps `freq1 < |f| ≤ freq2`, and its noise mask keeps
`|f| > freq2`; a bin is dropped (zeroed) by the other two masks, so the
masks are pairwise disjoint and jointly cover every bin. -/
theorem frequency_masks_partition (freq1 freq2 freq : ℚ)
    (h0 : 0 ≤ freq1) (h12 : freq1 ≤ freq2) :
    (¬dcDrop freq1 freq ↔ |freq| ≤ freq1) ∧
    (¬bodyDrop freq1 freq2 freq ↔ (freq1 < |freq| ∧ |freq| ≤ freq2)) ∧
    (¬noiseDrop freq2 freq ↔ freq2 < |freq|) ∧
    ((¬dcDrop freq1 freq ∧ bodyDrop freq1 freq2 freq ∧ noiseDrop freq2 freq) ∨
     (dcDrop freq1 freq ∧ ¬bodyDrop freq1 freq2 freq ∧ noiseDrop freq2 freq) ∨
     (dcDrop freq1 freq ∧ bodyDrop freq1 freq2 freq ∧ ¬noiseDrop freq2 freq)) := by
  refine ⟨by rw [dcDrop]; exact not_lt, by rw [bodyDrop, not_or, not_le, not_lt],
    by rw [noiseDrop]; exact not_le, ?_⟩
  rw [dcDrop, bodyDrop, noiseDrop]
  rcases le_or_lt |freq| freq1 with h | h
  · exact Or.inl ⟨not_lt.mpr h, Or.inl h, h.trans h12⟩
  · rcases le_or_lt |freq| freq2 with h2 | h2
    · refine Or.inr (Or.inl ⟨h, ?_, h2⟩)
      rintro (hc | hc)
      · exact absurd hc (not_le.mpr h)
      · exact absurd h2 (not_le.mpr hc)
    · exact Or.inr (Or.inr ⟨lt_of_le_of_lt h12 h2, Or.inr h2, not_le.mpr h2⟩)

/-- **C2 witness.** The partition theorem at the repository's default band
edges `freq1 = 0.001`, `freq2 = 25` and the concrete frequency `5`. -/
theorem frequency_masks_partition_witness :
    (¬dcDrop (1/1000) 5 ∧ bodyDrop (1/1000) 25 5 ∧ noiseDrop 25 5) ∨
    (dcDrop (1/1000) 5 ∧ ¬bodyDrop (1/1000) 25 5 ∧ noiseDrop 25 5) ∨
    (dcDrop (1/1000) 5 ∧ bodyDrop (1/1000) 25 5 ∧ ¬noiseDrop 25 5) :=
  (frequency_masks_partition (1/1000) 25 5 (by norm_num) (by norm_num)).2.2.2

/-! ### FFT frequency range (C9) -/

/-- **C9 counterexample.** For a signal of length `T = 2` at sampling
frequency `fs = 1`, the bin value `-1/2 = -fs/2` occurs but its mirror
`+1/2` does not, so the bin values are not symmetric about `0` as the
claim asserts for every `T ≥ 1`. -/
theorem fftfreq_not_symmetric_counterexample :
    ((-(1/2) : ℚ) ∈ fftfreq_list 2 1) ∧ ¬ (((1/2) : ℚ) ∈ fftfreq_list 2 1) := by
  have hl : fftfreq_list 2 1 = [0, -(1/2)] := by
    norm_num [fftfreq_list, List.range_succ]
  rw [hl]
  constructor
  · norm_num [List.mem_cons]
  · norm_num [List.mem_cons]

/-- **C9 (amended).** Every frequency bin of
`components_selection_one_signal` lies in `[-fs/2, fs/2]`; the bin set is
symmetric about `0` when the signal length is odd (for even length, the
single bin at `-fs/2` has no positive partner). -/
theorem fftfreq_range_bound (n : ℕ) (fs : ℚ) (hfs : 0 < fs) :
    (∀ f ∈ fftfreq_list n fs, -(fs/2) ≤ f ∧ f ≤ fs/2) ∧
    (Odd n → ∀ f ∈ fftfreq_list n fs, -f ∈ fftfreq_list n fs) := by
  constructor
  · intro f hf
    simp only [fftfreq_list, List.mem_map, List.mem_range] at hf
    obtain ⟨k, hk, rfl⟩ := hf
    have hn : 0 < n := by omega
    have hnq : (0 : ℚ) < (n : ℚ) := by exact_mod_cast hn
    split_ifs with h
    · have h2k : (2 * k : ℕ) ≤ n := by omega
      have h2kq : 2 * (k : ℚ) ≤ (n : ℚ) := by exact_mod_cast h2k
      have hkq : (0 : ℚ) ≤ (k : ℚ) := by positivity
      constructor
      · have hpos : (0 : ℚ) ≤ (k : ℚ) * fs / (n : ℚ) := by positivity
        nlinarith
      · rw [div_le_div_iff hnq (by norm_num : (0 : ℚ) < 2)]
        nlinarith
    · have h2k : n ≤ 2 * k := by omega
      have h2kq : (n : ℚ) ≤ 2 * (k : ℚ) := by exact_mod_cast h2k
      have hkq : (k : ℚ) ≤ (n : ℚ) := by exact_mod_cast Nat.le_of_lt hk
      constructor
      · rw [← neg_div, div_le_div_iff (by norm_num : (0 : ℚ) < 2) hnq]
        nlinarith
      · have hneg : ((k : ℚ) - (n : ℚ)) * fs / (n : ℚ) ≤ 0 := by
          apply div_nonpos_of_nonpos_of_nonneg
          · nlinarith
          · exact le_of_lt hnq
        nlinarith
  · intro hodd f hf
    have hmod : n % 2 = 1 := Nat.odd_iff.mp hodd
    simp only [fftfreq_list, List.mem_map, List.mem_range] at hf ⊢
    obtain ⟨k, hk, rfl⟩ := hf
    by_cases hk0 : k = 0
    · subst hk0
      refine ⟨0, hk, ?_⟩
      rw [if_pos (Nat.zero_le _)]
      push_cast
      ring
    · refine ⟨n - k, by omega, ?_⟩
      have hcast : ((n - k : ℕ) : ℚ) = (n : ℚ) - (k : ℚ) := by
        push_cast [Nat.cast_sub (Nat.le_of_lt hk)]
        ring
      by_cases h : k ≤ (n - 1) / 2
      · rw [if_neg (by omega), if_pos h, hcast]
        ring
      · rw [if_pos (by omega), if_neg h, hcast]
        ring

/-- **C9 witness.** The amended bound and odd-length symmetry at the
concrete length `T = 3` and sampling frequency `fs = 1`. -/
theorem fftfreq_range_bound_witness :
    (∀ f ∈ fftfreq_list 3 1, -((1 : ℚ)/2) ≤ f ∧ f ≤ (1 : ℚ)/2) ∧
    (∀ f ∈ fftfreq_list 3 1, -f ∈ fftfreq_list 3 1) :=
  ⟨(fftfreq_range_bound 3 1 (by norm_num)).1,
   (fftfreq_range_bound 3 1 (by norm_num)).2 (by decide)⟩

/-! ### Normalizer lemmas -/

lemma getD_map_lt {α β : Type _} (f : α → β) (l : List α) {i : ℕ} (hi : i < l.length)
    (d : β) (d2 : α) : (l.map f).getD i d = f (l.getD i d2) := by
  rw [List.getD_eq_getElem _ _ (by simpa using hi), List.getD_eq_getElem _ _ hi,
    List.getElem_map]

lemma le_foldl_max (l : List ℝ) : ∀ a : ℝ, a ≤ l.foldl max a := by
  induction l with
  | nil => intro a; exact le_refl a
  | cons x xs ih =>
    intro a
    rw [List.foldl_cons]
    exact le_trans (le_max_left a x) (ih _)

lemma foldl_min_le (l : List ℝ) : ∀ a : ℝ, l.foldl min a ≤ a := by
  induction l with
  | nil => intro a; exact le_refl a
  | cons x xs ih =>
    intro a
    rw [List.foldl_cons]
    exact le_trans (ih _) (min_le_left a x)

lemma listMin_le_listMax : ∀ l : List ℝ, listMin l ≤ listMax l
  | [] => le_refl 0
  | x :: xs => le_trans (foldl_min_le xs x) (le_foldl_max xs x)

lemma listStd_nonneg (l : List ℝ) : 0 ≤ listStd l :=
  Real.sqrt_nonneg _

lemma eps_pos : (0 : ℝ) < eps := by
  rw [eps]
  positivity

lemma getD_nonneg_of_forall {l : List ℝ} (h : ∀ x ∈ l, 0 ≤ x) (j : ℕ) :
    0 ≤ l.getD j 0 := by
  by_cases hj : j < l.length
  · rw [List.getD_eq_getElem _ _ hj]
    exact h _ (List.getElem_mem hj)
  · rw [List.getD_eq_getElem?_getD, List.getElem?_eq_none (le_of_not_lt hj)]
    exact le_refl 0

/-- For the four recognized modes, entry `(i, j)` of the normalized frame
is the source entry minus `normalizeCenter`, divided by `normalizeDenom`:
the two extracted functions really are the center and denominator that
`Normalizer.normalize` uses. -/
lemma normalize_entry_eq (norm_type : String) (st : NormState) (df out : Df)
    (hmode : norm_type ∈ validModes)
    (hout : Normalizer.normalize norm_type st df = .ok out)
    (i j : ℕ) (hi : i < df.length) (hj : j < (df.getD i (0, [])).2.length) :
    entryAt out i j =
      (entryAt df i j - normalizeCenter norm_type st df i j) /
        normalizeDenom norm_type st df i j := by
  have hdfi : df.getD i (0, []) = df[i] := List.getD_eq_getElem df (0, []) hi
  rw [hdfi] at hj
  simp only [validModes, List.mem_cons, List.not_mem_nil, or_false] at hmode
  rcases hmode with rfl | rfl | rfl | rfl
  · rw [Normalizer.normalize, if_pos rfl] at hout
    rw [← Except.ok.inj hout, entryAt, getD_map_lt _ df hi _ (0, []),
      normalizeCenter, if_pos rfl, normalizeDenom, if_pos rfl, entryAt, hdfi]
    simp only [getD_map_range, hj, if_true]
  · rw [Normalizer.normalize, if_neg (by decide), if_pos rfl] at hout
    rw [← Except.ok.inj hout, entryAt, getD_map_lt _ df hi _ (0, []),
      normalizeCenter, if_neg (by decide), if_pos rfl,
      normalizeDenom, if_neg (by decide), if_pos rfl, entryAt, hdfi]
    simp only [getD_map_range, hj, if_true]
  · rw [Normalizer.normalize, if_neg (by decide), if_neg (by decide), if_pos rfl] at hout
    rw [← Except.ok.inj hout, entryAt, getD_map_lt _ df hi _ (0, []),
      normalizeCenter, if_neg (by decide), if_neg (by decide), if_pos rfl,
      normalizeDenom, if_neg (by decide), if_neg (by decide), if_pos rfl, entryAt, hdfi]
    simp only [getD_map_range, hj, if_true]
  · rw [Normalizer.normalize, if_neg (by decide), if_neg (by decide), if_neg (by decide),
      if_pos rfl] at hout
    rw [← Except.ok.inj hout, entryAt, getD_map_lt _ df hi _ (0, []),
      normalizeCenter, if_neg (by decide), if_neg (by decide), if_neg (by decide),
      if_pos rfl,
      normalizeDenom, if_neg (by decide), if_neg (by decide), if_neg (by decide),
      if_pos rfl, entryAt, hdfi]
    simp only [getD_map_range, hj, if_true]

/-- **C6.** `Normalizer.fit` and `Normalizer.normalize` both raise the
`NameError` for every mode string outside the four recognized ones
(validation happens at `fit` time, the constructor only stores the
string), and for each of the four valid modes neither method errors on
that account. -/
theorem normalizer_mode_validation (norm_type : String) :
    (norm_type ∉ validModes →
      (∀ df : Df, Normalizer.fit norm_type df = .error (unknownModeMsg norm_type)) ∧
      (∀ (st : NormState) (df : Df),
        Normalizer.normalize norm_type st df = .error (unknownModeMsg norm_type))) ∧
    (norm_type ∈ validModes →
      (∀ df : Df, ∃ st, Normalizer.fit norm_type df = .ok st) ∧
      (∀ (st : NormState) (df : Df),
        ∃ out, Normalizer.normalize norm_type st df = .ok out)) := by
  constructor
  · intro hmem
    simp only [validModes, List.mem_cons, List.not_mem_nil, or_false] at hmem
    push_neg at hmem
    obtain ⟨h1, h2, h3, h4⟩ := hmem
    constructor
    · intro df
      rw [Normalizer.fit, if_neg h1, if_neg h2, if_neg h3, if_neg h4]
    · intro st df
      rw [Normalizer.normalize, if_neg h1, if_neg h2, if_neg h3, if_neg h4]
  · intro hmem
    simp only [validModes, List.mem_cons, List.not_mem_nil, or_false] at hmem
    rcases hmem with rfl | rfl | rfl | rfl
    · exact ⟨fun df => ⟨_, by rw [Normalizer.fit, if_pos rfl]⟩,
        fun st df => ⟨_, by rw [Normalizer.normalize, if_pos rfl]⟩⟩
    · exact ⟨fun df => ⟨_, by rw [Normalizer.fit, if_neg (by decide), if_pos rfl]⟩,
        fun st df => ⟨_, by rw [Normalizer.normalize, if_neg (by decide), if_pos rfl]⟩⟩
    · exact ⟨fun df => ⟨_, by
          rw [Normalizer.fit, if_neg (by decide), if_neg (by decide), if_pos rfl]⟩,
        fun st df => ⟨_, by
          rw [Normalizer.normalize, if_neg (by decide), if_neg (by decide), if_pos rfl]⟩⟩
    · exact ⟨fun df => ⟨_, by
          rw [Normalizer.fit, if_neg (by decide), if_neg (by decide), if_neg (by decide),
            if_pos rfl]⟩,
        fun st df => ⟨_, by
          rw [Normalizer.normalize, if_neg (by decide), if_neg (by decide),
            if_neg (by decide), if_pos rfl]⟩⟩

/-- **C6 witness.** The mode-validation theorem at the concrete invalid
mode string `"zscore"` and the concrete valid mode `"standardization"`,
on the concrete frame `dfConst`. -/
theorem normalizer_mode_validation_witness :
    Normalizer.fit "zscore" dfConst = .error (unknownModeMsg "zscore") ∧
    (∃ st, Normalizer.fit "standardization" dfConst = .ok st) :=
  ⟨((normalizer_mode_validation "zscore").1 (by decide)).1 dfConst,
   ((normalizer_mode_validation "standardization").2 (by decide)).1 dfConst⟩

/-- **C7 counterexample.** In `per_sample_std` mode, the source divides by
`grouped.transform('std')` with no epsilon: on the concrete frame
`dfConst`, whose single group is constant, the denominator used by
`Normalizer.normalize` is exactly `0` (while `eps > 0`), so the claim
that every one of the four modes adds epsilon to its denominator and
never divides by zero is false. -/
theorem per_sample_std_zero_denominator :
    (0 : ℝ) < eps ∧ normalizeDenom "per_sample_std" {} dfConst 0 0 = 0 := by
  refine ⟨eps_pos, ?_⟩
  have hg : groupCol dfConst ((dfConst.getD 0 (0, [])).1) 0 = [1, 1] := by
    rfl
  rw [normalizeDenom, if_neg (by decide), if_neg (by decide), if_pos rfl, hg]
  rw [listStd, listMeanR]
  norm_num

/-- **C7 (amended).** In the `standardization`, `minmax` and
`per_sample_minmax` modes the denominator used by `Normalizer.normalize`
has the machine epsilon added and is strictly positive — in particular
constant columns or groups never cause division by zero; the mode
`per_sample_std` is excluded because its denominator carries no epsilon
(see the counterexample). -/
theorem normalize_denominators_positive (norm_type : String) (df : Df) (st : NormState)
    (hmode : norm_type ∈ ["standardization", "minmax", "per_sample_minmax"])
    (hfit : Normalizer.fit norm_type df = .ok st) :
    ∀ i j, 0 < normalizeDenom norm_type st df i j := by
  intro i j
  simp only [List.mem_cons, List.not_mem_nil, or_false] at hmode
  rcases hmode with rfl | rfl | rfl
  · rw [Normalizer.fit, if_pos rfl] at hfit
    rw [normalizeDenom, if_pos rfl, ← Except.ok.inj hfit]
    have h0 : (0 : ℝ) ≤
        ((List.range (nCols df)).map (fun j => listStd (colVals df j))).getD j 0 := by
      apply getD_nonneg_of_forall
      intro x hx
      rw [List.mem_map] at hx
      obtain ⟨k, -, rfl⟩ := hx
      exact listStd_nonneg _
    have := eps_pos
    linarith
  · rw [Normalizer.fit, if_neg (by decide), if_pos rfl] at hfit
    rw [normalizeDenom, if_neg (by decide), if_pos rfl, ← Except.ok.inj hfit]
    rw [getD_map_range, getD_map_range]
    have := eps_pos
    by_cases hj : j < nCols df
    · rw [if_pos hj, if_pos hj]
      have := listMin_le_listMax (colVals df j)
      linarith
    · rw [if_neg hj, if_neg hj]
      linarith
  · rw [normalizeDenom, if_neg (by decide), if_neg (by decide), if_neg (by decide),
      if_pos rfl]
    have := eps_pos
    have := listMin_le_listMax (groupCol df (df.getD i (0, [])).1 j)
    linarith

/-- **C7 witness.** The amended positivity theorem applied at the concrete
mode `"minmax"`, the concrete frame `dfConst`, and the state produced by
`fit`. -/
theorem normalize_denominators_positive_witness :
    ∃ st, Normalizer.fit "minmax" dfConst = .ok st ∧
      0 < normalizeDenom "minmax" st dfConst 0 0 :=
  ⟨_, rfl, normalize_denominators_positive "minmax" dfConst _ (by decide) rfl 0 0⟩
